import Mathlib

/-!
Verification of the chat relay server (`server.go`).

The Go server keeps a `ChatServer` record: an append-only history slice
`msgs`, a map `clients` from client id to a dialled RPC endpoint, and a
buffered broadcast channel of capacity 100.  We embed the state and the
four facade operations (`Register`, `Unregister`, `Send`, `History`)
shallowly: endpoints are opaque `Nat` handles, the client map is an
association list with Go-map semantics (insert overwrites), the channel
contents are a FIFO list, and `Close` calls are recorded in a `closed`
log so that resource-release claims can be stated.  Network effects
(dial results, per-recipient delivery failures) are passed in as
explicit parameters, since the Go code branches only on their
success/failure.
-/

abbrev ClientId := String
abbrev Endpoint := Nat

structure MessageArgs where
  Sender : String
  Text : String
deriving Repr, DecidableEq

structure HistoryReply where
  Messages : List String
deriving Repr, DecidableEq

structure RegisterArgs where
  ID : String
  Addr : String
deriving Repr, DecidableEq

/-- The server state: history slice, client map (association list with
unique keys, insert-overwrites), pending broadcast queue contents, and
the log of endpoints on which `Close` has been called. -/
structure ChatServer where
  msgs : List String
  clients : List (ClientId × Endpoint)
  broadcast : List MessageArgs
  closed : List Endpoint
deriving Repr, DecidableEq

/-- Go map read `c.clients[id]`. -/
def lookupClient (l : List (ClientId × Endpoint)) (id : ClientId) : Option Endpoint :=
  match l with
  | [] => none
  | p :: rest => if p.1 == id then some p.2 else lookupClient rest id

/-- Go map write `c.clients[id] = cli` (insert or overwrite). -/
def insertClient (l : List (ClientId × Endpoint)) (id : ClientId) (cli : Endpoint) :
    List (ClientId × Endpoint) :=
  (id, cli) :: l.filter (fun p => !(p.1 == id))

/-- Go map delete `delete(c.clients, id)`. -/
def removeClient (l : List (ClientId × Endpoint)) (id : ClientId) :
    List (ClientId × Endpoint) :=
  l.filter (fun p => !(p.1 == id))

/-- The copy `append([]string(nil), c.msgs...)` used by `Send` and
`History` to return a defensive snapshot: a fresh slice built by
copying each element in order. -/
def copySlice (l : List String) : List String :=
  l.foldl (fun acc x => acc ++ [x]) []

/-- The snapshot of the client map the broadcaster goroutine takes
before fanning out (`clients := make(...)` copy loop). -/
def snapshotClients (c : ChatServer) : List (ClientId × Endpoint) :=
  c.clients

/--
`Register`: dials back the client (`rpc.Dial`); on failure returns the
error with no state change; on success stores the endpoint, appends the
join entry and enqueues the join broadcast with the new client as
sender.  The dial outcome is an explicit parameter.
-/
def Register (c : ChatServer) (args : RegisterArgs) (dial : Option Endpoint) :
    ChatServer × Except String Unit :=
  match dial with
  | none => (c, Except.error ("dial client " ++ args.ID ++ " at " ++ args.Addr))
  | some cli =>
    let joinMsg := "User " ++ args.ID ++ " joined"
    ({ c with
        clients := insertClient c.clients args.ID cli
        msgs := c.msgs ++ [joinMsg]
        broadcast := c.broadcast ++ [{ Sender := args.ID, Text := joinMsg }] },
     Except.ok ())

/--
`Unregister`: if the id is present, closes its endpoint and deletes it;
in all cases appends the leave entry, enqueues the leave broadcast with
the departing client as sender, and returns nil error.
-/
def Unregister (c : ChatServer) (args : RegisterArgs) :
    ChatServer × Except String Unit :=
  let c1 :=
    match lookupClient c.clients args.ID with
    | some cli =>
      { c with closed := c.closed ++ [cli], clients := removeClient c.clients args.ID }
    | none => c
  let leaveMsg := "User " ++ args.ID ++ " left"
  ({ c1 with
      msgs := c1.msgs ++ [leaveMsg]
      broadcast := c1.broadcast ++ [{ Sender := args.ID, Text := leaveMsg }] },
   Except.ok ())

/--
`Send`: formats `"{sender}: {text}"`, appends it to the history, copies
the full history into the reply inside the same critical section,
enqueues the raw message, and returns nil error.
-/
def Send (c : ChatServer) (args : MessageArgs) :
    ChatServer × HistoryReply × Except String Unit :=
  let entry := args.Sender ++ ": " ++ args.Text
  let msgs1 := c.msgs ++ [entry]
  ({ c with msgs := msgs1, broadcast := c.broadcast ++ [args] },
   { Messages := copySlice msgs1 },
   Except.ok ())

/-- `History`: returns a copy of the full history; no mutation. -/
def History (c : ChatServer) : HistoryReply × Except String Unit :=
  ({ Messages := copySlice c.msgs }, Except.ok ())

/--
The recipients the broadcaster attempts delivery to for one dequeued
message: every entry of the snapshot whose id differs from the sender
(`if id == msg.Sender continue`).
-/
def recipients (snap : List (ClientId × Endpoint)) (msg : MessageArgs) :
    List (ClientId × Endpoint) :=
  snap.filter (fun p => !(p.1 == msg.Sender))

/--
One per-recipient delivery attempt by a delivery goroutine: on failure
(`err != nil`) the endpoint is closed and the id deleted from the map;
on success nothing happens.
-/
def deliverOne (c : ChatServer) (id : ClientId) (cli : Endpoint) (fail : Bool) :
    ChatServer :=
  if fail then
    { c with closed := c.closed ++ [cli], clients := removeClient c.clients id }
  else c

/-- A deleted id no longer resolves in the client map. -/
theorem lookupClient_removeClient (l : List (ClientId × Endpoint)) (id : ClientId) :
    lookupClient (removeClient l id) id = none := by
  induction l with
  | nil => rfl
  | cons p rest ih =>
    by_cases hp : p.1 == id
    · simpa [removeClient, List.filter, hp] using ih
    · simp only [removeClient, List.filter] at ih ⊢
      simp [hp, lookupClient, ih]

/-- The copy loop returns the same contents it copied. -/
theorem copySlice_eq (l : List String) : copySlice l = l := by
  have h : ∀ acc : List String, l.foldl (fun acc x => acc ++ [x]) acc = acc ++ l := by
    induction l with
    | nil => intro acc; simp
    | cons x xs ih => intro acc; simp [List.foldl, ih]
  simpa [copySlice] using h []

/--
C1: for every call `Send(sender, text)`, the returned history snapshot
is non-empty, its last entry is `"{sender}: {text}"`, and the snapshot
equals the full history log including the newly appended entry.
-/
theorem send_snapshot_spec (c : ChatServer) (args : MessageArgs) :
    (Send c args).2.1.Messages ≠ [] ∧
    (Send c args).2.1.Messages.getLast? = some (args.Sender ++ ": " ++ args.Text) ∧
    (Send c args).2.1.Messages = (Send c args).1.msgs ∧
    (Send c args).1.msgs = c.msgs ++ [args.Sender ++ ": " ++ args.Text] := by
  refine ⟨?_, ?_, ?_, ?_⟩ <;>
    simp [Send, copySlice_eq]

/--
C2: the broadcaster never attempts delivery to the client whose id is
the message sender (`if id == msg.Sender continue`); in particular the
join broadcast enqueued by `Register` carries the joining client as
sender, and the message broadcast enqueued by `Send` carries the
sending client as sender, so neither receives its own broadcast.
-/
theorem broadcast_no_self_echo (snap : List (ClientId × Endpoint)) (msg : MessageArgs) :
    msg.Sender ∉ (recipients snap msg).map Prod.fst ∧
    (∀ (c : ChatServer) (args : RegisterArgs) (cli : Endpoint),
      ((Register c args (some cli)).1).broadcast =
        c.broadcast ++ [{ Sender := args.ID, Text := "User " ++ args.ID ++ " joined" }]) ∧
    (∀ (c : ChatServer) (args : MessageArgs),
      ((Send c args).1).broadcast = c.broadcast ++ [args]) := by
  refine ⟨?_, ?_, ?_⟩
  · intro hmem
    rcases List.mem_map.1 hmem with ⟨p, hp, hfst⟩
    have := List.of_mem_filter hp
    simp only [Bool.not_eq_true', beq_eq_false_iff_ne] at this
    exact this hfst
  · intro c args cli; rfl
  · intro c args; rfl

/--
C3: when the dial back to the client address fails, `Register` reports
the failure synchronously and mutates nothing: the state (client map,
history and broadcast queue alike) is returned exactly as it was.
-/
theorem register_dial_failure (c : ChatServer) (args : RegisterArgs) :
    (Register c args none).1 = c ∧
    (Register c args none).2 =
      Except.error ("dial client " ++ args.ID ++ " at " ++ args.Addr) := by
  exact ⟨rfl, rfl⟩

/--
C4: a failed per-recipient delivery removes that recipient from the
client map and closes its endpoint; a successful one changes nothing.
No delivery outcome touches the history, and the facade operations that
produced the message return nil errors regardless, so the failure is
never surfaced to their callers; each recipient appears at most as
often in the attempt list as in the snapshot (no retry duplicates the
attempt).
-/
theorem delivery_failure_evicts (c : ChatServer) (id : ClientId) (cli : Endpoint) :
    lookupClient (deliverOne c id cli true).clients id = none ∧
    (deliverOne c id cli true).closed = c.closed ++ [cli] ∧
    deliverOne c id cli false = c ∧
    (∀ fail : Bool, (deliverOne c id cli fail).msgs = c.msgs) ∧
    (∀ (c0 : ChatServer) (args : MessageArgs), (Send c0 args).2.2 = Except.ok ()) ∧
    (∀ (c0 : ChatServer) (args : RegisterArgs), (Unregister c0 args).2 = Except.ok ()) ∧
    (∀ (snap : List (ClientId × Endpoint)) (msg : MessageArgs) (i : ClientId),
      ((recipients snap msg).map Prod.fst).count i ≤ (snap.map Prod.fst).count i) := by
  refine ⟨?_, ?_, ?_, ?_, ?_, ?_, ?_⟩
  · simpa [deliverOne] using lookupClient_removeClient c.clients id
  · rfl
  · rfl
  · intro fail; cases fail <;> rfl
  · intro c0 args; rfl
  · intro c0 args; rfl
  · intro snap msg i
    have hsub : List.Sublist (recipients snap msg) snap := List.filter_sublist snap
    exact List.Sublist.count_le (List.Sublist.map Prod.fst hsub) i

/-- Filtering out the sender commutes with projecting the ids. -/
theorem map_fst_recipients (snap : List (ClientId × Endpoint)) (msg : MessageArgs) :
    (recipients snap msg).map Prod.fst =
      (snap.map Prod.fst).filter (fun i => !(i == msg.Sender)) := by
  induction snap with
  | nil => rfl
  | cons p rest ih =>
    by_cases hp : p.1 == msg.Sender
    · simpa [recipients, List.filter, hp] using ih
    · simp only [recipients, List.map, List.filter, hp] at ih ⊢
      simp [ih]

/--
C8: the delivery attempts for one dequeued message go exactly to the
registry snapshot taken at dequeue time minus the sender; an id absent
from that snapshot (such as a client registered after it was taken)
receives no delivery attempt for that message.
-/
theorem recipients_are_snapshot_minus_sender (snap : List (ClientId × Endpoint))
    (msg : MessageArgs) (id : ClientId) (hid : id ∉ snap.map Prod.fst) :
    (recipients snap msg).map Prod.fst =
      (snap.map Prod.fst).filter (fun i => !(i == msg.Sender)) ∧
    (∀ c : ChatServer, snapshotClients c = c.clients) ∧
    id ∉ (recipients snap msg).map Prod.fst := by
  refine ⟨map_fst_recipients snap msg, fun c => rfl, ?_⟩
  intro hmem
  rcases List.mem_map.1 hmem with ⟨p, hp, hfst⟩
  exact hid (List.mem_map.2 ⟨p, List.mem_of_mem_filter hp, hfst⟩)

/-- Witness for C8 at a concrete snapshot and message. -/
theorem recipients_are_snapshot_minus_sender_witness :
    ("C" : ClientId) ∉ ([("A", 1), ("B", 2)] : List (ClientId × Endpoint)).map Prod.fst ∧
    (recipients [("A", 1), ("B", 2)] { Sender := "A", Text := "hi" }).map Prod.fst =
      (([("A", 1), ("B", 2)] : List (ClientId × Endpoint)).map Prod.fst).filter
        (fun i => !(i == "A")) :=
  ⟨by decide,
   (recipients_are_snapshot_minus_sender [("A", 1), ("B", 2)]
     { Sender := "A", Text := "hi" } "C" (by decide)).1⟩

/--
C10: `Unregister` on an id that is not registered returns nil error,
leaves the client map (and the closed log) unchanged, and still appends
the entry `"User {id} left"` to the history and enqueues it for
broadcast with the departing id as sender.
-/
theorem unregister_absent_id (c : ChatServer) (args : RegisterArgs)
    (habs : lookupClient c.clients args.ID = none) :
    (Unregister c args).2 = Except.ok () ∧
    (Unregister c args).1.clients = c.clients ∧
    (Unregister c args).1.closed = c.closed ∧
    (Unregister c args).1.msgs = c.msgs ++ ["User " ++ args.ID ++ " left"] ∧
    (Unregister c args).1.broadcast =
      c.broadcast ++ [{ Sender := args.ID, Text := "User " ++ args.ID ++ " left" }] := by
  refine ⟨rfl, ?_, ?_, ?_, ?_⟩ <;> simp [Unregister, habs]

/-- Witness for C10 on a server that never registered the id. -/
theorem unregister_absent_id_witness :
    lookupClient (ChatServer.mk ["User A joined"] [("A", 1)] [] []).clients "B" = none ∧
    (Unregister (ChatServer.mk ["User A joined"] [("A", 1)] [] []) ⟨"B", "addr"⟩).1.msgs =
      ["User A joined"] ++ ["User B left"] :=
  ⟨by decide,
   (unregister_absent_id (ChatServer.mk ["User A joined"] [("A", 1)] [] [])
     ⟨"B", "addr"⟩ (by decide)).2.2.2.1⟩

/--
One server-side event: a facade call (with its dial outcome where one
occurs) or one per-recipient delivery attempt by the broadcast engine.
-/
inductive Op where
  | register (args : RegisterArgs) (dial : Option Endpoint)
  | unregister (args : RegisterArgs)
  | send (args : MessageArgs)
  | history
  | deliver (id : ClientId) (cli : Endpoint) (fail : Bool)

/-- The state transition performed by one event. -/
def step (c : ChatServer) : Op → ChatServer
  | Op.register args dial => (Register c args dial).1
  | Op.unregister args => (Unregister c args).1
  | Op.send args => (Send c args).1
  | Op.history => c
  | Op.deliver id cli fail => deliverOne c id cli fail

/-- Running a sequence of events from a state. -/
def run (c : ChatServer) (ops : List Op) : ChatServer :=
  ops.foldl step c

/-- Every single event only ever appends to the history. -/
theorem step_msgs_extend (c : ChatServer) (op : Op) :
    ∃ t, (step c op).msgs = c.msgs ++ t := by
  cases op with
  | register args dial =>
    cases dial with
    | none => exact ⟨[], by simp [step, Register]⟩
    | some cli => exact ⟨["User " ++ args.ID ++ " joined"], rfl⟩
  | unregister args =>
    cases h : lookupClient c.clients args.ID with
    | none => exact ⟨["User " ++ args.ID ++ " left"], by simp [step, Unregister, h]⟩
    | some cli => exact ⟨["User " ++ args.ID ++ " left"], by simp [step, Unregister, h]⟩
  | send args => exact ⟨[args.Sender ++ ": " ++ args.Text], rfl⟩
  | history => exact ⟨[], by simp [step]⟩
  | deliver id cli fail =>
    cases fail with
    | false => exact ⟨[], by simp [step, deliverOne]⟩
    | true => exact ⟨[], by simp [step, deliverOne]⟩

/-- A whole event sequence only ever appends to the history. -/
theorem run_msgs_extend (ops : List Op) :
    ∀ c : ChatServer, ∃ t, (run c ops).msgs = c.msgs ++ t := by
  induction ops with
  | nil => intro c; exact ⟨[], by simp [run]⟩
  | cons op rest ih =>
    intro c
    obtain ⟨t1, h1⟩ := step_msgs_extend c op
    obtain ⟨t2, h2⟩ := ih (step c op)
    exact ⟨t1 ++ t2, by simp [run] at h2 ⊢; simp [h2, h1]⟩

/--
C5: across every sequence of `Register`, `Unregister`, `Send`,
`History` (and delivery) events the history log is extended in place:
the old log is a prefix of the new one, so its length never decreases,
every existing entry keeps its value and position, and two successive
`History` calls never observe a shrinking log.
-/
theorem history_monotone (c : ChatServer) (ops : List Op) :
    c.msgs <+: (run c ops).msgs ∧
    c.msgs.length ≤ (run c ops).msgs.length ∧
    (∀ i, i < c.msgs.length → (run c ops).msgs.getD i "" = c.msgs.getD i "") ∧
    (History c).1.Messages.length ≤ (History (run c ops)).1.Messages.length := by
  obtain ⟨t, ht⟩ := run_msgs_extend ops c
  refine ⟨?_, ?_, ?_, ?_⟩
  · rw [ht]; exact List.prefix_append c.msgs t
  · rw [ht]; simp
  · intro i hi; rw [ht]; exact List.getD_append c.msgs t "" i hi
  · simp [History, copySlice_eq, ht]

/--
Counterexample to C7: starting from a server where `"A"` is registered
with endpoint 1, a successful re-`Register` of `"A"` with a new
endpoint 2 overwrites the map entry, so endpoint 1 ceases to be held by
any registry entry, yet `Close` is never called on it: the closed log
stays empty.
-/
theorem reregister_does_not_close_old_endpoint :
    lookupClient ((Register (ChatServer.mk [] [("A", 1)] [] [])
        ⟨"A", "addr2"⟩ (some 2)).1).clients "A" = some 2 ∧
    (1 : Endpoint) ∉ ((Register (ChatServer.mk [] [("A", 1)] [] [])
        ⟨"A", "addr2"⟩ (some 2)).1).closed ∧
    ((Register (ChatServer.mk [] [("A", 1)] [] [])
        ⟨"A", "addr2"⟩ (some 2)).1).closed = [] := by
  refine ⟨rfl, ?_, rfl⟩
  decide

/--
C7 amended: an endpoint removed by explicit `Unregister` or evicted by
the broadcast engine after a failed delivery is closed in the same
atomic step as its removal from the registry; but a re-`Register` that
overwrites the same identifier replaces the mapping without closing the
previously held endpoint.
-/
theorem endpoint_closed_on_removal (c : ChatServer) (args : RegisterArgs)
    (cli cliNew : Endpoint) (hheld : lookupClient c.clients args.ID = some cli) :
    (Unregister c args).1.closed = c.closed ++ [cli] ∧
    lookupClient (Unregister c args).1.clients args.ID = none ∧
    (deliverOne c args.ID cli true).closed = c.closed ++ [cli] ∧
    lookupClient (deliverOne c args.ID cli true).clients args.ID = none ∧
    (Register c args (some cliNew)).1.closed = c.closed := by
  refine ⟨by simp [Unregister, hheld], ?_, rfl, ?_, rfl⟩
  · simpa [Unregister, hheld] using lookupClient_removeClient c.clients args.ID
  · simpa [deliverOne] using lookupClient_removeClient c.clients args.ID

/-- Witness for the amended C7 on a concrete registered client. -/
theorem endpoint_closed_on_removal_witness :
    lookupClient (ChatServer.mk [] [("A", 5)] [] []).clients "A" = some 5 ∧
    (Unregister (ChatServer.mk [] [("A", 5)] [] []) ⟨"A", "addr"⟩).1.closed = [] ++ [5] :=
  ⟨by decide,
   (endpoint_closed_on_removal (ChatServer.mk [] [("A", 5)] [] [])
     ⟨"A", "addr"⟩ 5 7 (by decide)).1⟩

/-- The broadcast channel capacity, from `make(chan MessageArgs, 100)`. -/
def queueCap : Nat := 100

/--
The transitions of the buffered broadcast channel: a producer can place
a message at the back only while fewer than `queueCap` messages are
pending (otherwise no enqueue transition is enabled and the producer
blocks), and the single dispatch loop removes messages from the front
in FIFO order.  There is no transition that drops a message or rejects
an enqueue with an error.
-/
inductive QStep : List MessageArgs → List MessageArgs → Prop where
  | enqueue (q : List MessageArgs) (m : MessageArgs) (h : q.length < queueCap) :
      QStep q (q ++ [m])
  | dequeue (m : MessageArgs) (q : List MessageArgs) : QStep (m :: q) q

/--
C9: the broadcast queue is bounded at capacity 100; every transition
either appends one message at the back — possible only when the queue
holds fewer than 100 messages, so an enqueue from a full queue is not
enabled and the enqueuing `Register`, `Unregister` or `Send` caller
blocks until the dispatch loop frees space — or removes the front
message; the bound is preserved and no message is dropped or rejected.
Each of the three mutating facade operations enqueues exactly its one
message at the back of the queue.
-/
theorem queue_bounded_backpressure (q q1 : List MessageArgs) (h : QStep q q1) :
    queueCap = 100 ∧
    ((∃ m, q1 = q ++ [m] ∧ q.length < queueCap) ∨ (∃ m, q = m :: q1)) ∧
    (q.length ≤ queueCap → q1.length ≤ queueCap) ∧
    (∀ (c : ChatServer) (args : RegisterArgs) (cli : Endpoint),
      ((Register c args (some cli)).1).broadcast =
        c.broadcast ++ [{ Sender := args.ID, Text := "User " ++ args.ID ++ " joined" }]) ∧
    (∀ (c : ChatServer) (args : RegisterArgs),
      ((Unregister c args).1).broadcast =
        c.broadcast ++ [{ Sender := args.ID, Text := "User " ++ args.ID ++ " left" }]) ∧
    (∀ (c : ChatServer) (args : MessageArgs),
      ((Send c args).1).broadcast = c.broadcast ++ [args]) := by
  refine ⟨rfl, ?_, ?_, fun c args cli => rfl, ?_, fun c args => rfl⟩
  · cases h with
    | enqueue q m hlt => exact Or.inl ⟨m, rfl, hlt⟩
    | dequeue m q => exact Or.inr ⟨m, rfl⟩
  · intro hle
    cases h with
    | enqueue q m hlt => simpa using hlt
    | dequeue m q => simp at hle ⊢; omega
  · intro c args
    cases hl : lookupClient c.clients args.ID <;> simp [Unregister, hl]

/-- Witness for C9: an enqueue step from the empty queue. -/
theorem queue_bounded_backpressure_witness : queueCap = 100 :=
  (queue_bounded_backpressure [] [{ Sender := "a", Text := "b" }]
    (QStep.enqueue [] { Sender := "a", Text := "b" } (by decide))).1

/--
Heap model of the Go slices backing the history, used to settle the
aliasing claim about returned snapshots.  `heap` holds the backing
arrays allocated so far (identified by their index) and `msgsRef` is
the array currently backing `c.msgs`.
-/
structure HeapState where
  heap : List (List String)
  msgsRef : Nat
deriving Repr, DecidableEq

/--
Mutations the server performs on string arrays after a snapshot has
been returned.  Appending a history entry (`Register`, `Unregister`,
`Send`) either writes into the current backing array in place or
reallocates a fresh array, depending on spare capacity — both runtime
behaviours of Go `append` are covered.  Taking another snapshot
(`History` or `Send`) copies into a fresh array.  Registry mutations
touch no string array at all.
-/
inductive HStep : HeapState → HeapState → Prop where
  | appendInPlace (s : HeapState) (e : String) :
      HStep s ⟨s.heap.set s.msgsRef (s.heap.getD s.msgsRef [] ++ [e]), s.msgsRef⟩
  | appendRealloc (s : HeapState) (e : String) :
      HStep s ⟨s.heap ++ [s.heap.getD s.msgsRef [] ++ [e]], s.heap.length⟩
  | takeSnap (s : HeapState) :
      HStep s ⟨s.heap ++ [s.heap.getD s.msgsRef []], s.msgsRef⟩
  | registryOnly (s : HeapState) : HStep s s

/--
The snapshot copy `append([]string(nil), c.msgs...)`: allocates a fresh
backing array holding the current history and returns its reference;
the live log keeps its own backing array.
-/
def snapshotRef (s : HeapState) : HeapState × Nat :=
  (⟨s.heap ++ [s.heap.getD s.msgsRef []], s.msgsRef⟩, s.heap.length)

/-- The facts preserved by every mutation: the snapshot array exists,
is not the live backing array, and still holds its original contents. -/
def SnapInv (r : Nat) (v : List String) (t : HeapState) : Prop :=
  r < t.heap.length ∧ t.msgsRef ≠ r ∧ t.heap.getD r [] = v

/-- Writing one cell leaves every other cell unchanged. -/
theorem getD_set_ne (l : List (List String)) (i j : Nat) (a : List String)
    (h : i ≠ j) : (l.set i a).getD j [] = l.getD j [] := by
  induction l generalizing i j with
  | nil => rfl
  | cons x rest ih =>
    cases i with
    | zero =>
      cases j with
      | zero => exact absurd rfl h
      | succ j1 => rfl
    | succ i1 =>
      cases j with
      | zero => rfl
      | succ j1 =>
        simpa [List.set, List.getD] using ih i1 j1 (fun he => h (by rw [he]))

/-- Each mutation step preserves the snapshot facts. -/
theorem hstep_preserves (r : Nat) (v : List String) (t t1 : HeapState)
    (hI : SnapInv r v t) (hs : HStep t t1) : SnapInv r v t1 := by
  obtain ⟨hlt, hne, hval⟩ := hI
  cases hs with
  | appendInPlace e =>
    refine ⟨by simp [hlt], hne, ?_⟩
    rw [getD_set_ne _ _ _ _ hne]; exact hval
  | appendRealloc e =>
    refine ⟨by simp; omega, fun he => absurd he.symm (Nat.ne_of_lt hlt), ?_⟩
    rw [List.getD_append _ _ _ _ hlt]; exact hval
  | takeSnap =>
    refine ⟨by simp; omega, hne, ?_⟩
    rw [List.getD_append _ _ _ _ hlt]; exact hval
  | registryOnly => exact ⟨hlt, hne, hval⟩

/-- The snapshot facts persist along any run of mutations. -/
theorem hsteps_preserve (r : Nat) (v : List String) (t0 t1 : HeapState)
    (hreach : Relation.ReflTransGen HStep t0 t1) (h0 : SnapInv r v t0) :
    SnapInv r v t1 := by
  induction hreach with
  | refl => exact h0
  | tail hab hbc ih => exact hstep_preserves r v _ _ ih hbc

/--
C6: the snapshot returned by `History` or `Send` is an independent
copy, not an alias of the live log: its backing array still holds
exactly the history as of snapshot time after any sequence of later
registry or history mutations, whichever way Go `append` behaves.
-/
theorem snapshot_is_independent_copy (s t : HeapState)
    (href : s.msgsRef < s.heap.length)
    (hreach : Relation.ReflTransGen HStep (snapshotRef s).1 t) :
    (snapshotRef s).2 < t.heap.length ∧
    t.heap.getD (snapshotRef s).2 [] = s.heap.getD s.msgsRef [] := by
  have h0 : SnapInv s.heap.length (s.heap.getD s.msgsRef []) (snapshotRef s).1 := by
    refine ⟨by simp [snapshotRef], Nat.ne_of_lt href, ?_⟩
    have : (s.heap ++ [s.heap.getD s.msgsRef []]).getD s.heap.length [] =
        s.heap.getD s.msgsRef [] := by
      rw [List.getD_eq_getElem?_getD]
      simp
    exact this
  have h1 := hsteps_preserve _ _ _ _ hreach h0
  exact ⟨h1.1, h1.2.2⟩

/-- Witness for C6: one in-place append after a snapshot leaves the
snapshot array holding its original contents. -/
theorem snapshot_is_independent_copy_witness :
    (0 : Nat) < (HeapState.mk [["x"]] 0).heap.length ∧
    (HeapState.mk [["x", "y"], ["x"]] 0).heap.getD 1 [] =
      (HeapState.mk [["x"]] 0).heap.getD 0 [] :=
  ⟨by decide,
   (snapshot_is_independent_copy ⟨[["x"]], 0⟩ ⟨[["x", "y"], ["x"]], 0⟩ (by decide)
     (Relation.ReflTransGen.single
       (HStep.appendInPlace ⟨[["x"], ["x"]], 0⟩ "y"))).2⟩
